import Mathlib

/-!
# Verification of the Quantopia trading platform against its specification

This file shallowly embeds the parts of the Quantopia repository that the
frozen claims are about, and proves or refutes each claim.

The repository splits into a React/TypeScript frontend (present in the
sources: `frontend/src/...` plus the two backtest/trade detail pages) and a
Python backend (`backend/src/quantopia/backtest.py`, `strategy.py`, ...)
whose implementation files are not among the sources — only its README and
the frontend callers are.  Frontend logic (FIFO win/loss pairing of the
backtest detail page, task-control button gating, chart decoration, y-axis
domain computation, the profit/loss-ratio sentinel display) is translated
directly from the TypeScript.  Backend logic (Execution Simulator, Backtest
Engine, Metrics Module) is modelled from the specification, as marked on the
corresponding definitions.

Numeric values are embedded as rationals (`ℚ`); JavaScript's special
floating-point values, where a claim depends on them, are embedded by an
explicit inductive (`JSNum`) with `NaN`/infinity propagation.
-/

/-- Trade side, from the frontend type `TradeEntry.trade_type : 'buy' | 'sell'`
(`frontend/src/types/index.ts`). -/
inductive TradeType
  | buy
  | sell
deriving DecidableEq, Repr

/-- The fields of the frontend `TradeEntry` (`frontend/src/types/index.ts`)
that the backtest-detail pairing logic reads: `data_index`, `trade_type`,
`price`, `quantity`. -/
structure TradeEntry where
  data_index : Nat
  trade_type : TradeType
  price : ℚ
  quantity : ℚ
deriving DecidableEq, Repr

/-- Win/loss label attached to a sell trade by the backtest detail page
(`'win' | 'loss'`). -/
inductive WinLoss
  | win
  | loss
deriving DecidableEq, Repr

/-- JavaScript `Map.set` on a map represented as an association list in
insertion order: an existing key is updated in place, a new key is appended. -/
def mapSet : List (Nat × WinLoss) → Nat → WinLoss → List (Nat × WinLoss)
  | [], k, v => [(k, v)]
  | (k', v') :: rest, k, v =>
      if k' = k then (k, v) :: rest else (k', v') :: mapSet rest k v

/-- Keys of an association-list map, in order. -/
def mapKeys (m : List (Nat × WinLoss)) : List Nat := m.map Prod.fst

/-- The loop body of `tradePairs` in the backtest detail page (source file
`part_001`, `useMemo` at lines 882–908): a buy is pushed onto the end of
`buyStack`; a sell, when the stack is non-empty, shifts the front entry
(the oldest open buy), computes
`profit = (sell.price − buy.price) × sell.quantity`
`         − sell.price × sell.quantity × rate − buy.price × buy.quantity × rate`
and records `'win'` iff `profit ≥ 0` under the sell's `data_index`;
a sell with an empty stack records nothing. -/
def tradePairsAux (rate : ℚ) :
    List TradeEntry → List TradeEntry → List (Nat × WinLoss) → List (Nat × WinLoss)
  | [], _, pairs => pairs
  | t :: rest, buyStack, pairs =>
      match t.trade_type with
      | TradeType.buy => tradePairsAux rate rest (buyStack ++ [t]) pairs
      | TradeType.sell =>
          match buyStack with
          | [] => tradePairsAux rate rest [] pairs
          | b :: bs =>
              let commission := t.price * t.quantity * rate
              let buyCommission := b.price * b.quantity * rate
              let profit := (t.price - b.price) * t.quantity - commission - buyCommission
              tradePairsAux rate rest bs
                (mapSet pairs t.data_index (if 0 ≤ profit then WinLoss.win else WinLoss.loss))

/-- `tradePairs` of the backtest detail page (`part_001`, lines 882–908):
the win/loss map computed over the whole trade list, starting from an empty
buy stack and an empty map.  `rate` is `backtest.config.commission_rate`. -/
def tradePairs (rate : ℚ) (trades : List TradeEntry) : List (Nat × WinLoss) :=
  tradePairsAux rate trades [] []

/-- The example trade sequence buy 10@100, buy 10@110, sell 10@120, sell 10@90
at data indices 0–3. -/
def exampleTrades : List TradeEntry :=
  [ ⟨0, TradeType.buy, 100, 10⟩
  , ⟨1, TradeType.buy, 110, 10⟩
  , ⟨2, TradeType.sell, 120, 10⟩
  , ⟨3, TradeType.sell, 90, 10⟩ ]

/-! ## Task-control button gating (trade task detail page and task list)

The trade-task detail page (source file `part_000`, lines 362–391) and the
task list (`frontend/src/pages/TradeManagement.tsx`, lines 845–893) gate the
control buttons with identical conditions on the status string:
pause iff `status === 'running'`, resume iff `status === 'paused'`, stop iff
`status !== 'stopped' && status !== 'completed' && !status.startsWith('error')`. -/

/-- A live-task status.  The frontend receives it as a string; the spec's
`error(reason)` states are serialized as strings starting with `error` (the
frontend tests them with `status.startsWith('error')`), embedded here as the
`error msg` constructor. -/
inductive TaskStatus
  | running
  | waiting
  | paused
  | stopped
  | completed
  | error (msg : String)
deriving DecidableEq, Repr

/-- The status string the frontend receives for each status. -/
def statusString : TaskStatus → String
  | TaskStatus.running => "running"
  | TaskStatus.waiting => "waiting"
  | TaskStatus.paused => "paused"
  | TaskStatus.stopped => "stopped"
  | TaskStatus.completed => "completed"
  | TaskStatus.error msg => "error: " ++ msg

/-- The pause button's render condition: `status === 'running'`. -/
def pauseShown : TaskStatus → Bool
  | TaskStatus.running => true
  | _ => false

/-- The resume button's render condition: `status === 'paused'`. -/
def resumeShown : TaskStatus → Bool
  | TaskStatus.paused => true
  | _ => false

/-- The stop button's render condition:
`status !== 'stopped' && status !== 'completed' && !status.startsWith('error')`
(exactly the `error msg` statuses have a string starting with `error`). -/
def stopShown : TaskStatus → Bool
  | TaskStatus.stopped => false
  | TaskStatus.completed => false
  | TaskStatus.error _ => false
  | _ => true

/-- A terminal task status: `stopped`, `completed`, or an error status. -/
def isTerminalStatus : TaskStatus → Bool
  | TaskStatus.stopped => true
  | TaskStatus.completed => true
  | TaskStatus.error _ => true
  | _ => false

/-- A control operation on a live task (§6 task control surface). -/
inductive ControlOp
  | pause
  | resume
  | stop
deriving DecidableEq, Repr

/-- Modelled from the spec: the backend handlers of the task control surface
(§6) are not among the sources (only the frontend callers are).  Per §6,
invoking pause/resume/stop on a task already in a terminal status returns a
descriptive error rather than succeeding silently; on a non-terminal task the
operation takes the task to its target status. -/
def applyControl (op : ControlOp) (status : TaskStatus) : Except String TaskStatus :=
  if isTerminalStatus status then
    Except.error ("task is already in terminal status " ++ statusString status)
  else
    match op with
    | ControlOp.pause => Except.ok TaskStatus.paused
    | ControlOp.resume => Except.ok TaskStatus.running
    | ControlOp.stop => Except.ok TaskStatus.stopped

/-! ## Profit/loss-ratio sentinel -/

/-- The statistics display's sentinel test (`part_001`, `StatsSection`,
lines 1078–1085): `stats.profit_loss_ratio === 999.999 ? '∞' : ...` —
the value is rendered as infinity exactly when it equals `999.999`. -/
def displaysAsInfinity (profit_loss_ratio_value : ℚ) : Bool :=
  profit_loss_ratio_value = 999999 / 1000

/-- Arithmetic mean of a list of rationals (`0` on the empty list, since
`x / 0 = 0` in `ℚ`). -/
def listMean (l : List ℚ) : ℚ := l.sum / (l.length : ℚ)

/-- Modelled from the spec: the Metrics Module's `profit_loss_ratio` (§4.4)
is computed by the backend (`backtest.py`), which is not among the sources.
Per §4.4 it is `mean(win amounts) / mean(|loss amounts|)`, and when there are
no losing pairs the fixed large sentinel `999.999` (the exact value the
statistics display tests for) is reported instead of dividing by zero. -/
def profit_loss_ratio (winAmounts lossAmounts : List ℚ) : ℚ :=
  if lossAmounts.isEmpty then 999999 / 1000
  else listMean winAmounts / listMean (lossAmounts.map (fun a => |a|))

/-! ## Chart data construction (`frontend/src/components/DataChart.tsx`) -/

/-- Signal kind, from the frontend type `SignalEntry.signal : 'buy' | 'sell' | 'hold'`. -/
inductive SignalKind
  | buy
  | sell
  | hold
deriving DecidableEq, Repr

/-- The fields of the frontend `SignalEntry` read by the chart. -/
structure SignalEntry where
  data_index : Nat
  signal : SignalKind
  price : ℚ
deriving DecidableEq, Repr

/-- `Number(price.toFixed(3))`: the price rounded to three decimals. -/
def round3 (q : ℚ) : ℚ := (round (q * 1000) : ℤ) / 1000

/-- One element of the chart data array built by `DataChart` (the fields the
component writes; absent/null fields are `none`). -/
structure ChartPoint where
  index : Nat
  price : ℚ
  signal : Option SignalKind
  buyMarker : Option ℚ
  sellMarker : Option ℚ
  trade : Option TradeType
  tradePrice : Option ℚ
deriving DecidableEq, Repr

/-- One step of `DataChart`'s `chartData` map (lines 32–63): the point at
`index` holds the 3-decimal-rounded price; the first signal whose
`data_index` matches sets `signal` and a raw-price buy/sell marker; the first
trade whose `data_index` matches sets `trade` and `tradePrice`. -/
def mkChartPoint (signals : List SignalEntry) (trades : List TradeEntry)
    (index : Nat) (price : ℚ) : ChartPoint :=
  let base : ChartPoint :=
    { index := index, price := round3 price, signal := none,
      buyMarker := none, sellMarker := none, trade := none, tradePrice := none }
  let withSignal :=
    match signals.find? (fun s => s.data_index = index) with
    | none => base
    | some s =>
        match s.signal with
        | SignalKind.buy => { base with signal := some s.signal, buyMarker := some price }
        | SignalKind.sell => { base with signal := some s.signal, sellMarker := some price }
        | SignalKind.hold => { base with signal := some s.signal }
  match trades.find? (fun t => t.data_index = index) with
  | none => withSignal
  | some t => { withSignal with trade := some t.trade_type, tradePrice := some t.price }

/-- `data.prices.map((price, index) => ...)` with a running index. -/
def chartDataAux (signals : List SignalEntry) (trades : List TradeEntry) :
    Nat → List ℚ → List ChartPoint
  | _, [] => []
  | i, p :: ps => mkChartPoint signals trades i p :: chartDataAux signals trades (i + 1) ps

/-- `chartData` of `DataChart` (lines 32–63): one point per input price, in
input order, indexed from 0. -/
def chartData (prices : List ℚ) (signals : List SignalEntry)
    (trades : List TradeEntry) : List ChartPoint :=
  chartDataAux signals trades 0 prices

/-- The trade map built by `trades.forEach(t => tradeMap.set(t.data_index,
t.trade_type))`: the last trade with a given `data_index` wins. -/
def tradeMapGet (trades : List TradeEntry) (i : Nat) : Option TradeType :=
  trades.foldl (fun acc t => if t.data_index = i then some t.trade_type else acc) none

/-- `enhancedChartData` of `DataChart` (lines 65–77): when the trade list is
empty the chart data is returned unchanged; otherwise every point is copied
with its `buyMarker`/`sellMarker` fields overwritten from the trade map
(`point.price` when the map holds a matching buy/sell, `null` otherwise). -/
def enhancedChartData (prices : List ℚ) (signals : List SignalEntry)
    (trades : List TradeEntry) : List ChartPoint :=
  if trades.isEmpty then chartData prices signals trades
  else
    (chartData prices signals trades).map fun point =>
      { point with
        buyMarker :=
          if tradeMapGet trades point.index = some TradeType.buy then some point.price
          else none
        sellMarker :=
          if tradeMapGet trades point.index = some TradeType.sell then some point.price
          else none }

/-! ## Y-axis domain (`DataChart.tsx` lines 356–364 and
`frontend/src/pages/FetchTaskDetail.tsx` lines 30–38, identical logic)

The values array may hold JavaScript numbers that are not finite, so numbers
are embedded with their special values; `null` entries are embedded as
`Option.none` (they fail the `typeof v === 'number'` filter). -/

/-- A JavaScript number: finite, `Infinity`, `-Infinity`, or `NaN`. -/
inductive JSNum
  | fin (q : ℚ)
  | posInf
  | negInf
  | nan
deriving DecidableEq, Repr

/-- `isFinite` on a JavaScript number. -/
def JSNum.isFinite : JSNum → Bool
  | JSNum.fin _ => true
  | _ => false

/-- `Math.min` on two JavaScript numbers (`NaN` propagates). -/
def jsMin : JSNum → JSNum → JSNum
  | JSNum.nan, _ => JSNum.nan
  | _, JSNum.nan => JSNum.nan
  | JSNum.negInf, _ => JSNum.negInf
  | _, JSNum.negInf => JSNum.negInf
  | JSNum.posInf, y => y
  | x, JSNum.posInf => x
  | JSNum.fin a, JSNum.fin b => JSNum.fin (min a b)

/-- `Math.max` on two JavaScript numbers (`NaN` propagates). -/
def jsMax : JSNum → JSNum → JSNum
  | JSNum.nan, _ => JSNum.nan
  | _, JSNum.nan => JSNum.nan
  | JSNum.posInf, _ => JSNum.posInf
  | _, JSNum.posInf => JSNum.posInf
  | JSNum.negInf, y => y
  | x, JSNum.negInf => x
  | JSNum.fin a, JSNum.fin b => JSNum.fin (max a b)

/-- The `yDomain` computation shared by `DataChart.tsx` (lines 356–364) and
`FetchTaskDetail.tsx` (lines 30–38): filter the price list down to numbers,
return `undefined` when it is empty or its min/max is not finite, otherwise
pad the `[min, max]` range by `(max − min)*0.1`, falling back (JavaScript
`||` on a zero pad) to `(max || 1)*0.1`. -/
def yDomain (vals : List (Option JSNum)) : Option (ℚ × ℚ) :=
  match vals.filterMap id with
  | [] => none
  | v :: vs =>
      match vs.foldl jsMin v, vs.foldl jsMax v with
      | JSNum.fin mn, JSNum.fin mx =>
          let pad0 := (mx - mn) * (1 / 10)
          let pad := if pad0 = 0 then (if mx = 0 then 1 else mx) * (1 / 10) else pad0
          some (mn - pad, mx + pad)
      | _, _ => none

/-! ## Execution Simulator, Backtest Engine, Metrics Module

The backend implementation (`backend/src/quantopia/backtest.py`,
`strategy.py`) is not among the sources — only its README and the frontend
callers are — so these components are modelled from the specification
(§4.1, §4.2, §4.4), as marked on each definition. -/

/-- Modelled from the spec: the commission configuration (§3 `TaskConfig`:
"flat commission or commission rate") of the missing backend.  Backtests use
a rate on notional, live tasks a flat per-trade fee (§4.2). -/
inductive CommissionModel
  | flat (fee : ℚ)
  | rate (r : ℚ)
deriving DecidableEq, Repr

/-- Commission charged on a trade of the given notional value. -/
def commCharge : CommissionModel → ℚ → ℚ
  | CommissionModel.flat fee, _ => fee
  | CommissionModel.rate r, notional => notional * r

/-- Modelled from the spec: the Execution Simulator's configuration (§4.1),
whose implementation is not among the sources. -/
structure SimConfig where
  lot_size : ℚ
  max_position_ratio : ℚ
  commission : CommissionModel
deriving DecidableEq, Repr

/-- The trade record the Execution Simulator returns (§3 `Trade`, minus the
timestamp/annotation fields owned by the engines). -/
structure SimTrade where
  trade_type : TradeType
  price : ℚ
  quantity : ℚ
  cash_after : ℚ
  position_after : ℚ
  commission : ℚ
deriving DecidableEq, Repr

/-- Modelled from the spec: the Execution Simulator's
`evaluate(signal, price, cash, position, config)` (§4.1), whose
implementation is not among the sources.  Single-position model: a buy is a
no-op if `position > 0`, a sell is a no-op if `position = 0`.  On buy,
affordable shares =
`floor((cash × max_position_ratio − commission) / price / lot_size) × lot_size`
(the formula's `commission` term is the flat fee under the flat model and the
rate applied to the buy budget `cash × max_position_ratio` under the rate
model); if ≤ 0 the buy is a no-op, otherwise exactly that many shares are
bought and cost + commission (commission charged on the actual notional) is
deducted.  On sell, the entire position is liquidated and
proceeds − commission are added. -/
def evaluate (signal : SignalKind) (price cash position : ℚ) (cfg : SimConfig) :
    ℚ × ℚ × Option SimTrade :=
  match signal with
  | SignalKind.hold => (cash, position, none)
  | SignalKind.buy =>
      if 0 < position then (cash, position, none)
      else
        let budget := cash * cfg.max_position_ratio
        let upfront := commCharge cfg.commission budget
        let shares := ((⌊(budget - upfront) / price / cfg.lot_size⌋ : ℤ) : ℚ) * cfg.lot_size
        if shares ≤ 0 then (cash, position, none)
        else
          let cost := shares * price
          let commission := commCharge cfg.commission cost
          let newCash := cash - cost - commission
          (newCash, shares,
            some ⟨TradeType.buy, price, shares, newCash, shares, commission⟩)
  | SignalKind.sell =>
      if position = 0 then (cash, position, none)
      else
        let proceeds := position * price
        let commission := commCharge cfg.commission proceeds
        let newCash := cash + proceeds - commission
        (newCash, 0,
          some ⟨TradeType.sell, price, position, newCash, 0, commission⟩)

/-- Modelled from the spec: the per-tick state sequence of an engine run
(§4.2, §4.3).  At each index the strategy sees exactly the prefix of the
series up to and including that index (no look-ahead), the Simulator is
invoked once, and the resulting `(cash, position)` is recorded. -/
def backtestStatesAux (cfg : SimConfig) (strat : List ℚ → SignalKind) :
    List ℚ → List ℚ → ℚ → ℚ → List (ℚ × ℚ)
  | [], _, _, _ => []
  | p :: ps, hist, cash, pos =>
      let hist' := hist ++ [p]
      let res := evaluate (strat hist') p cash pos cfg
      (res.1, res.2.1) :: backtestStatesAux cfg strat ps hist' res.1 res.2.1

/-- The `(cash, position)` accounting states of a run: the initial state
(initial cash, zero position) followed by the state after every tick. -/
def backtestStates (cfg : SimConfig) (strat : List ℚ → SignalKind)
    (series : List ℚ) (initialCash : ℚ) : List (ℚ × ℚ) :=
  (initialCash, 0) :: backtestStatesAux cfg strat series [] initialCash 0

/-! ### Metrics (§4.4) -/

/-- Modelled from the spec: the running-peak drawdown sequence of an equity
curve (§4.4 `max_drawdown_pct`): the peak is updated at each sample and the
sample's drawdown is `(peak − current)/peak`. -/
def drawdowns : List ℚ → ℚ → List ℚ
  | [], _ => []
  | x :: xs, peak =>
      let peak' := max peak x
      (peak' - x) / peak' :: drawdowns xs peak'

/-- Modelled from the spec: `max_drawdown_pct` (§4.4), computed by the
missing backend: the maximum running-peak drawdown over the equity curve,
reported as a non-negative percentage (`0` for an empty curve; the running
peak starts at the first sample). -/
def max_drawdown_pct : List ℚ → ℚ
  | [] => 0
  | x :: xs => ((drawdowns (x :: xs) x).foldl max 0) * 100

/-- Modelled from the spec: the FIFO pair-profit list of the Metrics Module
(§4.4): each sell consumes the oldest outstanding buy; the pair's profit is
`(sell_price − buy_price) × quantity` minus both legs' commissions at the
given rate. -/
def fifoProfits (rate : ℚ) : List SimTrade → List SimTrade → List ℚ
  | [], _ => []
  | t :: rest, stack =>
      match t.trade_type with
      | TradeType.buy => fifoProfits rate rest (stack ++ [t])
      | TradeType.sell =>
          match stack with
          | [] => fifoProfits rate rest []
          | b :: bs =>
              ((t.price - b.price) * t.quantity
                  - t.price * t.quantity * rate - b.price * b.quantity * rate)
                :: fifoProfits rate rest bs

/-! ### Backtest Engine (§4.2) -/

/-- The inputs of the Backtest Engine's contract
`run(series, strategy, params, initial_cash, commissionRate)` (§4.2); the
strategy is an opaque pure function of a random seed, its parameter map and
the visible price history (§6 Strategy Registry). -/
structure BacktestInput where
  series : List ℚ
  strategy : Nat → List (String × ℚ) → List ℚ → SignalKind
  params : List (String × ℚ)
  seed : Nat
  initial_cash : ℚ
  commission_rate : ℚ

/-- A recorded strategy signal (§3 `Signal`, index form). -/
structure BSignal where
  data_index : Nat
  signal : SignalKind
  price : ℚ
deriving DecidableEq, Repr

/-- A recorded engine trade: the Simulator's trade record plus the index at
which it happened (§3 `Trade`, index form). -/
structure BTrade where
  data_index : Nat
  trade : SimTrade
deriving DecidableEq, Repr

/-- The run statistics the claims are about (§3 `RunStats`, the fields
derivable from the trade log and equity curve). -/
structure RunStats where
  initial_cash : ℚ
  final_cash : ℚ
  final_position : ℚ
  final_value : ℚ
  total_return : ℚ
  total_return_pct : ℚ
  stat_max_drawdown_pct : ℚ
  buy_count : Nat
  sell_count : Nat
  total_trades : Nat
  winning_trades : Nat
  losing_trades : Nat
  total_trade_pairs : Nat
  win_rate : ℚ
  stat_profit_loss_ratio : ℚ
deriving DecidableEq, Repr

/-- The output of a Backtest Engine run: signals, trades and stats (§4.2). -/
structure BacktestResult where
  signals : List BSignal
  trades : List BTrade
  stats : RunStats
deriving DecidableEq, Repr

/-- Modelled from the spec: one synchronous pass of the Backtest Engine
(§4.2), whose implementation is not among the sources: iterate the series in
order; at each index the strategy sees only the prefix up to and including
that index; the Simulator runs once per index; the signal, any trade, and
the post-tick equity `cash + position × price` are recorded.  Returns
(signals, trades, equity curve, final cash, final position). -/
def engineAux (cfg : SimConfig) (strat : List ℚ → SignalKind) :
    List ℚ → Nat → List ℚ → ℚ → ℚ →
    List BSignal × List BTrade × List ℚ × ℚ × ℚ
  | [], _, _, cash, pos => ([], [], [], cash, pos)
  | p :: ps, i, hist, cash, pos =>
      let hist' := hist ++ [p]
      let sig := strat hist'
      let res := evaluate sig p cash pos cfg
      let rest := engineAux cfg strat ps (i + 1) hist' res.1 res.2.1
      ( ⟨i, sig, p⟩ :: rest.1,
        (match res.2.2 with
         | none => rest.2.1
         | some tr => ⟨i, tr⟩ :: rest.2.1),
        (res.1 + res.2.1 * p) :: rest.2.2.1,
        rest.2.2.2 )

/-- Modelled from the spec: the Backtest Engine's
`run(series, strategy, params, initial_cash, commissionRate)` (§4.2), whose
implementation is not among the sources.  Commission is a rate on notional;
the simulator runs with whole-share lots and a full position ratio; the
stats are derived from the trade log and equity curve per §4.4. -/
def runBacktest (inp : BacktestInput) : BacktestResult :=
  let cfg : SimConfig := ⟨1, 1, CommissionModel.rate inp.commission_rate⟩
  let strat := inp.strategy inp.seed inp.params
  let out := engineAux cfg strat inp.series 0 [] inp.initial_cash 0
  let signals := out.1
  let trades := out.2.1
  let equity := out.2.2.1
  let finalCash := out.2.2.2.1
  let finalPos := out.2.2.2.2
  let lastPrice := inp.series.getLast?.getD 0
  let finalValue := finalCash + finalPos * lastPrice
  let totalReturn := finalValue - inp.initial_cash
  let profits := fifoProfits inp.commission_rate (trades.map BTrade.trade) []
  let wins := profits.filter (fun x => 0 ≤ x)
  let losses := profits.filter (fun x => x < 0)
  { signals := signals
  , trades := trades
  , stats :=
    { initial_cash := inp.initial_cash
    , final_cash := finalCash
    , final_position := finalPos
    , final_value := finalValue
    , total_return := totalReturn
    , total_return_pct := totalReturn / inp.initial_cash * 100
    , stat_max_drawdown_pct := max_drawdown_pct equity
    , buy_count := (trades.filter (fun t => t.trade.trade_type = TradeType.buy)).length
    , sell_count := (trades.filter (fun t => t.trade.trade_type = TradeType.sell)).length
    , total_trades := trades.length
    , winning_trades := wins.length
    , losing_trades := losses.length
    , total_trade_pairs := profits.length
    , win_rate :=
        if profits.length = 0 then 0
        else (wins.length : ℚ) / (profits.length : ℚ) * 100
    , stat_profit_loss_ratio := profit_loss_ratio wins losses } }

/-! ### Concrete instances used as witnesses and counterexamples -/

/-- A concrete backtest input: a two-point series with a buy-then-sell
strategy, the frontend's default initial cash and commission rate. -/
def exInput : BacktestInput :=
  { series := [100, 101]
  , strategy := fun _ _ hist => if hist.length ≤ 1 then SignalKind.buy else SignalKind.sell
  , params := [("short_window", 5), ("long_window", 20)]
  , seed := 0
  , initial_cash := 100000
  , commission_rate := 1 / 1000 }

/-- A flat-commission configuration with a 6-unit per-trade fee (live trade
tasks configure a flat per-trade commission; the frontend's default is 5). -/
def cfgFlatCE : SimConfig := ⟨1, 1, CommissionModel.flat 6⟩

/-- A strategy that buys on the first tick and sells afterwards. -/
def stratBuyThenSell : List ℚ → SignalKind :=
  fun hist => if hist.length ≤ 1 then SignalKind.buy else SignalKind.sell

/-! ## Helper lemmas on `foldl max` / `foldl min` over `ℚ` -/

theorem le_foldl_max (l : List ℚ) (a : ℚ) : a ≤ l.foldl max a := by
  induction l generalizing a with
  | nil => exact le_refl a
  | cons x xs ih => exact le_trans (le_max_left a x) (ih (max a x))

theorem mem_le_foldl_max {x : ℚ} (l : List ℚ) (a : ℚ) (hx : x ∈ l) :
    x ≤ l.foldl max a := by
  induction l generalizing a with
  | nil => cases hx
  | cons y ys ih =>
      simp only [List.foldl_cons]
      rcases List.mem_cons.mp hx with h | h
      · subst h
        exact le_trans (le_max_right a x) (le_foldl_max ys (max a x))
      · exact ih (max a y) h

theorem foldl_max_cases (l : List ℚ) (a : ℚ) :
    l.foldl max a = a ∨ ∃ x ∈ l, l.foldl max a = x := by
  induction l generalizing a with
  | nil => exact Or.inl rfl
  | cons y ys ih =>
      rcases ih (max a y) with h | ⟨x, hx, hfx⟩
      · by_cases hay : a ≤ y
        · exact Or.inr ⟨y, List.mem_cons_self y ys, by rw [List.foldl_cons, h, max_eq_right hay]⟩
        · exact Or.inl (by rw [List.foldl_cons, h, max_eq_left (le_of_not_le hay)])
      · exact Or.inr ⟨x, List.mem_cons_of_mem y hx, hfx⟩

theorem foldl_min_le (l : List ℚ) (a : ℚ) : l.foldl min a ≤ a := by
  induction l generalizing a with
  | nil => exact le_refl a
  | cons x xs ih => exact le_trans (ih (min a x)) (min_le_left a x)

theorem foldl_min_le_mem {x : ℚ} (l : List ℚ) (a : ℚ) (hx : x ∈ l) :
    l.foldl min a ≤ x := by
  induction l generalizing a with
  | nil => cases hx
  | cons y ys ih =>
      simp only [List.foldl_cons]
      rcases List.mem_cons.mp hx with h | h
      · subst h
        exact le_trans (foldl_min_le ys (min a x)) (min_le_right a x)
      · exact ih (min a y) h

/-! ## C2: status-gated task control -/

/-- C2: the pause operation is offered exactly when the status is `running`
and resume exactly when it is `paused`; stop is offered exactly on the
non-terminal statuses; on a terminal status (`stopped`, `completed`, or an
error status) none of pause/resume/stop is offered, and an attempted
operation returns a descriptive error rather than succeeding. -/
theorem task_control_status_gating (s : TaskStatus) (op : ControlOp) :
    (pauseShown s = true ↔ s = TaskStatus.running) ∧
    (resumeShown s = true ↔ s = TaskStatus.paused) ∧
    (stopShown s = true ↔ isTerminalStatus s = false) ∧
    (isTerminalStatus s = true →
      pauseShown s = false ∧ resumeShown s = false ∧ stopShown s = false ∧
      ∃ msg, applyControl op s = Except.error msg) := by
  refine ⟨?_, ?_, ?_, ?_⟩
  · cases s <;> simp [pauseShown]
  · cases s <;> simp [resumeShown]
  · cases s <;> simp [stopShown, isTerminalStatus]
  · intro h
    refine ⟨?_, ?_, ?_, ⟨"task is already in terminal status " ++ statusString s, ?_⟩⟩
    · cases s <;> simp_all [pauseShown, isTerminalStatus]
    · cases s <;> simp_all [resumeShown, isTerminalStatus]
    · cases s <;> simp_all [stopShown, isTerminalStatus]
    · simp [applyControl, h]

/-- Witness for C2 at the terminal status `stopped`. -/
theorem task_control_status_gating_witness :
    pauseShown TaskStatus.stopped = false ∧
    (∃ msg, applyControl ControlOp.pause TaskStatus.stopped = Except.error msg) := by
  have h := (task_control_status_gating TaskStatus.stopped ControlOp.pause).2.2.2 rfl
  exact ⟨h.1, h.2.2.2⟩

/-! ## C3: profit/loss ratio and the no-loss sentinel -/

/-- C3: `profit_loss_ratio` is `mean(win amounts) / mean(|loss amounts|)`
when there is at least one losing pair, and the fixed sentinel `999.999`
when there is none; the statistics display renders a profit/loss ratio as
`∞` exactly when it equals `999.999`. -/
theorem profit_loss_ratio_sentinel (wins losses : List ℚ) (x : ℚ) :
    (losses = [] → profit_loss_ratio wins losses = 999999 / 1000) ∧
    (losses ≠ [] →
      profit_loss_ratio wins losses
        = listMean wins / listMean (losses.map (fun a => |a|))) ∧
    (displaysAsInfinity x = true ↔ x = 999999 / 1000) := by
  refine ⟨?_, ?_, ?_⟩
  · intro h; simp [profit_loss_ratio, h]
  · intro h; simp [profit_loss_ratio, h]
  · simp [displaysAsInfinity]

/-- Witness for C3: a run with one winning pair and no losing pairs reports
the sentinel, which the display renders as `∞`. -/
theorem profit_loss_ratio_sentinel_witness :
    profit_loss_ratio [5] [] = 999999 / 1000 ∧
    displaysAsInfinity (profit_loss_ratio [5] []) = true := by
  have h := profit_loss_ratio_sentinel [5] [] (profit_loss_ratio [5] [])
  exact ⟨h.1 rfl, h.2.2.mpr (h.1 rfl)⟩

/-! ## C6: backtest determinism -/

/-- C6: the Backtest Engine is a pure function of its inputs (series,
strategy, parameters, seed, initial cash, commission rate): two runs on
identical inputs produce identical signals, trades and stats. -/
theorem backtest_deterministic (i j : BacktestInput) (h : i = j) :
    (runBacktest i).signals = (runBacktest j).signals ∧
    (runBacktest i).trades = (runBacktest j).trades ∧
    (runBacktest i).stats = (runBacktest j).stats := by
  subst h; exact ⟨rfl, rfl, rfl⟩

/-- Witness for C6 at a concrete input. -/
theorem backtest_deterministic_witness :
    (runBacktest exInput).signals = (runBacktest exInput).signals ∧
    (runBacktest exInput).trades = (runBacktest exInput).trades ∧
    (runBacktest exInput).stats = (runBacktest exInput).stats :=
  backtest_deterministic exInput exInput rfl

/-! ## C7: maximum drawdown -/

/-- C7 counterexample: on the equity curve `[100, 120, 90, 130, 80]` the
running-peak maximum drawdown is `(130 − 80)/130 × 100 = 500/13 ≈ 38.46%`,
not `(120 − 80)/120 × 100 ≈ 33.33%` as the claim's example states. -/
theorem max_drawdown_example_counterexample :
    max_drawdown_pct [100, 120, 90, 130, 80] = 500 / 13 ∧
    ¬ max_drawdown_pct [100, 120, 90, 130, 80] = (120 - 80) / 120 * 100 := by
  constructor
  · norm_num [max_drawdown_pct, drawdowns, max_def]
  · norm_num [max_drawdown_pct, drawdowns, max_def]

/-- C7 (amended): `max_drawdown_pct` is the maximum over all samples of
`(running peak − current)/running peak`, as a non-negative percentage: it is
non-negative, it bounds every sample's running-peak drawdown, it is zero or
attained at some sample, and on `[100, 120, 90, 130, 80]` it equals
`(130 − 80)/130 × 100 = 500/13 ≈ 38.46%`. -/
theorem max_drawdown_pct_running_peak (x : ℚ) (xs : List ℚ) :
    0 ≤ max_drawdown_pct (x :: xs) ∧
    (∀ d ∈ drawdowns (x :: xs) x, d * 100 ≤ max_drawdown_pct (x :: xs)) ∧
    (max_drawdown_pct (x :: xs) = 0 ∨
      ∃ d ∈ drawdowns (x :: xs) x, max_drawdown_pct (x :: xs) = d * 100) ∧
    max_drawdown_pct [100, 120, 90, 130, 80] = 500 / 13 := by
  refine ⟨?_, ?_, ?_, ?_⟩
  · have h := le_foldl_max (drawdowns (x :: xs) x) 0
    simp only [max_drawdown_pct]
    exact mul_nonneg h (by norm_num)
  · intro d hd
    have h := mem_le_foldl_max (drawdowns (x :: xs) x) 0 hd
    simp only [max_drawdown_pct]
    exact mul_le_mul_of_nonneg_right h (by norm_num)
  · rcases foldl_max_cases (drawdowns (x :: xs) x) 0 with h | ⟨d, hd, hfd⟩
    · exact Or.inl (by simp only [max_drawdown_pct]; rw [h]; ring)
    · exact Or.inr ⟨d, hd, by simp only [max_drawdown_pct]; rw [hfd]⟩
  · norm_num [max_drawdown_pct, drawdowns, max_def]

/-- Witness for C7's amended theorem at the example curve. -/
theorem max_drawdown_pct_running_peak_witness :
    max_drawdown_pct [100, 120, 90, 130, 80] = 500 / 13 :=
  (max_drawdown_pct_running_peak 100 [120, 90, 130, 80]).2.2.2

/-! ## C9: chart decoration preserves the price series -/

theorem mkChartPoint_index (signals : List SignalEntry) (trades : List TradeEntry)
    (i : Nat) (p : ℚ) : (mkChartPoint signals trades i p).index = i := by
  simp only [mkChartPoint]
  split <;> split <;> (try split) <;> rfl

theorem mkChartPoint_price (signals : List SignalEntry) (trades : List TradeEntry)
    (i : Nat) (p : ℚ) : (mkChartPoint signals trades i p).price = round3 p := by
  simp only [mkChartPoint]
  split <;> split <;> (try split) <;> rfl

theorem chartDataAux_proj (signals : List SignalEntry) (trades : List TradeEntry) :
    ∀ (ps : List ℚ) (i : Nat),
      (chartDataAux signals trades i ps).map ChartPoint.index = List.range' i ps.length ∧
      (chartDataAux signals trades i ps).map ChartPoint.price = ps.map round3 := by
  intro ps
  induction ps with
  | nil => intro i; simp [chartDataAux]
  | cons p ps ih =>
      intro i
      constructor
      · simp only [chartDataAux, List.map_cons, List.length_cons]
        rw [mkChartPoint_index, (ih (i + 1)).1]
        rfl
      · simp only [chartDataAux, List.map_cons]
        rw [mkChartPoint_price, (ih (i + 1)).2]

/-- C9: the decorated chart data has exactly one point per input price, at
indices `0, 1, …` in input order, each carrying the 3-decimal-rounded input
price; attaching trade markers only rewrites the `buyMarker`/`sellMarker`
fields and never inserts, removes or reorders points. -/
theorem chart_decoration_preserves_prices (prices : List ℚ)
    (signals : List SignalEntry) (trades : List TradeEntry) :
    (enhancedChartData prices signals trades).map ChartPoint.index
        = List.range prices.length ∧
    (enhancedChartData prices signals trades).map ChartPoint.price
        = prices.map round3 := by
  have hbase := chartDataAux_proj signals trades prices 0
  have hrange : List.range prices.length = List.range' 0 prices.length :=
    List.range_eq_range' _
  unfold enhancedChartData
  by_cases ht : trades.isEmpty = true
  · rw [if_pos ht]
    exact ⟨hrange ▸ hbase.1, hbase.2⟩
  · rw [if_neg ht, List.map_map, List.map_map]
    exact ⟨hrange ▸ hbase.1, hbase.2⟩

/-! ## C1: FIFO win/loss pairing -/

/-- C1: in the backtest detail page's pairing, a buy is appended to the back
of the open-buy queue; a sell is paired with the front of the queue (the
oldest open buy), with profit
`(sell_price − buy_price) × sell_quantity − sell_commission − buy_commission`
(each leg's commission being its notional times the commission rate) and the
label `win` exactly when the profit is ≥ 0; on the trade sequence
buy 10@100, buy 10@110, sell 10@120, sell 10@90 (with a commission rate that
keeps the first pair's profit `200 − 2200 × rate` non-negative, e.g. any
realistic rate ≤ 1/11), sell#1 pairs with buy#1 as a win and sell#2 with
buy#2 as a loss. -/
theorem tradePairs_fifo (rate : ℚ) (t b : TradeEntry) (rest bs stack : List TradeEntry)
    (pairs : List (Nat × WinLoss)) :
    (t.trade_type = TradeType.buy →
      tradePairsAux rate (t :: rest) stack pairs
        = tradePairsAux rate rest (stack ++ [t]) pairs) ∧
    (t.trade_type = TradeType.sell →
      tradePairsAux rate (t :: rest) (b :: bs) pairs
        = tradePairsAux rate rest bs
            (mapSet pairs t.data_index
              (if 0 ≤ (t.price - b.price) * t.quantity
                    - t.price * t.quantity * rate - b.price * b.quantity * rate
               then WinLoss.win else WinLoss.loss))) ∧
    (0 ≤ rate → 2200 * rate ≤ 200 →
      tradePairs rate exampleTrades = [(2, WinLoss.win), (3, WinLoss.loss)]) := by
  refine ⟨?_, ?_, ?_⟩
  · intro h; simp [tradePairsAux, h]
  · intro h; simp [tradePairsAux, h]
  · intro h0 h1
    simp only [tradePairs, exampleTrades, tradePairsAux, mapSet]
    norm_num
    constructor
    · intro hc; exfalso; linarith
    · intro hc; exfalso; linarith

/-- Witness for C1 at the frontend's default commission rate `0.001`. -/
theorem tradePairs_fifo_witness :
    tradePairs (1/1000) exampleTrades = [(2, WinLoss.win), (3, WinLoss.loss)] :=
  (tradePairs_fifo (1/1000) ⟨0, TradeType.buy, 0, 0⟩ ⟨0, TradeType.buy, 0, 0⟩
    [] [] [] []).2.2 (by norm_num) (by norm_num)

/-! ## C8: unmatched sells are skipped -/

theorem mem_mapKeys_mapSet {j k : Nat} {v : WinLoss} :
    ∀ pairs : List (Nat × WinLoss),
      j ∈ mapKeys (mapSet pairs k v) → j = k ∨ j ∈ mapKeys pairs := by
  intro pairs
  induction pairs with
  | nil =>
      intro h
      simp [mapSet, mapKeys] at h
      exact Or.inl h
  | cons p rest ih =>
      obtain ⟨k', v'⟩ := p
      intro h
      by_cases hpk : k' = k
      · subst hpk
        rw [mapSet, if_pos rfl] at h
        simp only [mapKeys, List.map_cons, List.mem_cons] at h
        rcases h with h1 | h1
        · exact Or.inl h1
        · refine Or.inr ?_
          simp only [mapKeys, List.map_cons, List.mem_cons]
          exact Or.inr h1
      · rw [mapSet, if_neg hpk] at h
        simp only [mapKeys, List.map_cons, List.mem_cons] at h
        rcases h with h1 | h1
        · refine Or.inr ?_
          simp only [mapKeys, List.map_cons, List.mem_cons]
          exact Or.inl h1
        · rcases ih h1 with h2 | h2
          · exact Or.inl h2
          · refine Or.inr ?_
            simp only [mapKeys, List.map_cons, List.mem_cons]
            exact Or.inr h2

theorem tradePairsAux_keys (rate : ℚ) :
    ∀ (trades : List TradeEntry) (stack : List TradeEntry)
      (pairs : List (Nat × WinLoss)) (k : Nat),
      k ∈ mapKeys (tradePairsAux rate trades stack pairs) →
      k ∈ mapKeys pairs ∨
        ∃ u ∈ trades, u.trade_type = TradeType.sell ∧ u.data_index = k := by
  intro trades
  induction trades with
  | nil =>
      intro stack pairs k h
      simp only [tradePairsAux] at h
      exact Or.inl h
  | cons t rest ih =>
      intro stack pairs k h
      cases htt : t.trade_type with
      | buy =>
          simp only [tradePairsAux, htt] at h
          rcases ih (stack ++ [t]) pairs k h with h2 | ⟨u, hu, hs⟩
          · exact Or.inl h2
          · exact Or.inr ⟨u, List.mem_cons_of_mem t hu, hs⟩
      | sell =>
          cases stack with
          | nil =>
              simp only [tradePairsAux, htt] at h
              rcases ih [] pairs k h with h2 | ⟨u, hu, hs⟩
              · exact Or.inl h2
              · exact Or.inr ⟨u, List.mem_cons_of_mem t hu, hs⟩
          | cons b bs =>
              simp only [tradePairsAux, htt] at h
              rcases ih bs _ k h with h2 | ⟨u, hu, hs⟩
              · rcases mem_mapKeys_mapSet _ h2 with heq | h3
                · exact Or.inr ⟨t, List.mem_cons_self t rest, htt, heq.symm⟩
                · exact Or.inl h3
              · exact Or.inr ⟨u, List.mem_cons_of_mem t hu, hs⟩

/-- C8: a sell arriving while the open-buy queue is empty produces no pair
and leaves the (empty) queue unchanged, and every key of the resulting
win/loss map is the `data_index` of some sell trade of the input — buy
trades never receive a win/loss label. -/
theorem tradePairs_unmatched_sell (rate : ℚ) (t : TradeEntry)
    (rest trades : List TradeEntry) (pairs : List (Nat × WinLoss)) (k : Nat) :
    (t.trade_type = TradeType.sell →
      tradePairsAux rate (t :: rest) [] pairs = tradePairsAux rate rest [] pairs) ∧
    (k ∈ mapKeys (tradePairs rate trades) →
      ∃ u ∈ trades, u.trade_type = TradeType.sell ∧ u.data_index = k) := by
  constructor
  · intro h; simp [tradePairsAux, h]
  · intro h
    rcases tradePairsAux_keys rate trades [] [] k h with h2 | h2
    · simp [mapKeys] at h2
    · exact h2

/-- Witness for C8: a lone sell with no preceding buy is skipped. -/
theorem tradePairs_unmatched_sell_witness :
    tradePairsAux (1/1000) [⟨0, TradeType.sell, 100, 10⟩] [] [] =
      tradePairsAux (1/1000) [] [] [] :=
  (tradePairs_unmatched_sell (1/1000) ⟨0, TradeType.sell, 100, 10⟩ [] [] [] 0).1 rfl

/-! ## C4: Execution Simulator buy sizing -/

/-- C4: with position 0, a buy trades exactly
`floor((cash × max_position_ratio − commission) / price / lot_size) × lot_size`
shares — a no-op when that quantity is ≤ 0, and otherwise cost plus
commission is deducted from cash; in particular with `lot_size = 5` and 12
affordable shares (cash 1205, ratio 1, flat commission 5, price 100) exactly
10 shares are traded, never 12. -/
theorem evaluate_buy_sizing (price cash lot ratio fee : ℚ) :
    (((⌊(cash * ratio - fee) / price / lot⌋ : ℤ) : ℚ) * lot ≤ 0 →
      evaluate SignalKind.buy price cash 0 ⟨lot, ratio, CommissionModel.flat fee⟩
        = (cash, 0, none)) ∧
    (0 < ((⌊(cash * ratio - fee) / price / lot⌋ : ℤ) : ℚ) * lot →
      evaluate SignalKind.buy price cash 0 ⟨lot, ratio, CommissionModel.flat fee⟩
        = (cash - ((⌊(cash * ratio - fee) / price / lot⌋ : ℤ) : ℚ) * lot * price - fee,
           ((⌊(cash * ratio - fee) / price / lot⌋ : ℤ) : ℚ) * lot,
           some ⟨TradeType.buy, price,
                 ((⌊(cash * ratio - fee) / price / lot⌋ : ℤ) : ℚ) * lot,
                 cash - ((⌊(cash * ratio - fee) / price / lot⌋ : ℤ) : ℚ) * lot * price - fee,
                 ((⌊(cash * ratio - fee) / price / lot⌋ : ℤ) : ℚ) * lot, fee⟩)) ∧
    (evaluate SignalKind.buy 100 1205 0 ⟨5, 1, CommissionModel.flat 5⟩).2.1 = 10 ∧
    (10 : ℚ) ≠ 12 := by
  refine ⟨?_, ?_, ?_, by norm_num⟩
  · intro h
    simp only [evaluate, commCharge]
    split_ifs with h1
    all_goals rfl
  · intro h
    simp only [evaluate, commCharge]
    split_ifs with h1 h2
    all_goals first
      | rfl
      | exact absurd h1 (lt_irrefl 0)
      | exact absurd h2 (not_le.mpr h)
  · norm_num [evaluate, commCharge]

/-- Witness for C4: a no-op buy when no shares are affordable, and the
lot-rounding consequence. -/
theorem evaluate_buy_sizing_witness :
    evaluate SignalKind.buy 1 0 0 ⟨1, 1, CommissionModel.flat 0⟩ = (0, 0, none) ∧
    (10 : ℚ) ≠ 12 :=
  ⟨(evaluate_buy_sizing 1 0 1 1 0).1 (by norm_num),
   (evaluate_buy_sizing 1 0 1 1 0).2.2.2⟩

/-! ## C5: non-negativity of the accounting state -/

theorem floor_lot_mul_price_le (A price lot : ℚ) (hp : 0 < price) (hl : 0 < lot) :
    ((⌊A / price / lot⌋ : ℤ) : ℚ) * lot * price ≤ A := by
  have h1 : ((⌊A / price / lot⌋ : ℤ) : ℚ) ≤ A / price / lot := Int.floor_le _
  have h2 : ((⌊A / price / lot⌋ : ℤ) : ℚ) * lot ≤ A / price / lot * lot :=
    mul_le_mul_of_nonneg_right h1 hl.le
  rw [div_mul_cancel₀ _ (ne_of_gt hl)] at h2
  calc ((⌊A / price / lot⌋ : ℤ) : ℚ) * lot * price ≤ A / price * price :=
        mul_le_mul_of_nonneg_right h2 hp.le
    _ = A := div_mul_cancel₀ _ (ne_of_gt hp)

theorem evaluate_position_nonneg (sig : SignalKind) (price cash pos : ℚ)
    (cfg : SimConfig) (hq : 0 ≤ pos) : 0 ≤ (evaluate sig price cash pos cfg).2.1 := by
  cases sig with
  | hold => exact hq
  | buy =>
      simp only [evaluate]
      split_ifs with h1 h2
      · exact hq
      · exact hq
      · exact (not_le.mp h2).le
  | sell =>
      simp only [evaluate]
      split_ifs with h1
      · exact hq
      · exact le_refl 0

theorem evaluate_flat_buy_cash_nonneg (price cash pos lot ratio fee : ℚ)
    (hl : 0 < lot) (hρ1 : ratio ≤ 1) (hp : 0 < price) (hc : 0 ≤ cash) :
    0 ≤ (evaluate SignalKind.buy price cash pos ⟨lot, ratio, CommissionModel.flat fee⟩).1 := by
  simp only [evaluate, commCharge]
  split_ifs with h1 h2
  · exact hc
  · exact hc
  · have hs := floor_lot_mul_price_le (cash * ratio - fee) price lot hp hl
    have hcr : cash * ratio ≤ cash := by
      have := mul_le_mul_of_nonneg_left hρ1 hc
      simpa using this
    show 0 ≤ cash - ((⌊(cash * ratio - fee) / price / lot⌋ : ℤ) : ℚ) * lot * price - fee
    linarith

theorem evaluate_flat_sell_cash_nonneg (price cash pos lot ratio fee : ℚ)
    (hc : 0 ≤ cash) (hfee : fee ≤ cash + pos * price) :
    0 ≤ (evaluate SignalKind.sell price cash pos ⟨lot, ratio, CommissionModel.flat fee⟩).1 := by
  simp only [evaluate, commCharge]
  split_ifs with h1
  · exact hc
  · show 0 ≤ cash + pos * price - fee
    linarith

theorem evaluate_rate_nonneg (sig : SignalKind) (price cash pos lot ratio r : ℚ)
    (hl : 0 < lot) (hρ0 : 0 < ratio) (hρ1 : ratio ≤ 1) (hr0 : 0 ≤ r) (hr1 : r ≤ 1)
    (hp : 0 < price) (hc : 0 ≤ cash) (hq : 0 ≤ pos) :
    0 ≤ (evaluate sig price cash pos ⟨lot, ratio, CommissionModel.rate r⟩).1 ∧
    0 ≤ (evaluate sig price cash pos ⟨lot, ratio, CommissionModel.rate r⟩).2.1 := by
  refine ⟨?_, evaluate_position_nonneg sig price cash pos _ hq⟩
  cases sig with
  | hold => exact hc
  | buy =>
      simp only [evaluate, commCharge]
      split_ifs with h1 h2
      · exact hc
      · exact hc
      · have hs := floor_lot_mul_price_le (cash * ratio - cash * ratio * r) price lot hp hl
        show 0 ≤ cash
            - ((⌊(cash * ratio - cash * ratio * r) / price / lot⌋ : ℤ) : ℚ) * lot * price
            - ((⌊(cash * ratio - cash * ratio * r) / price / lot⌋ : ℤ) : ℚ) * lot * price * r
        nlinarith [mul_le_mul_of_nonneg_right hs (by linarith : (0:ℚ) ≤ 1 + r),
          mul_nonneg (mul_nonneg hc hρ0.le) (mul_nonneg hr0 hr0),
          mul_nonneg hc (by linarith : (0:ℚ) ≤ 1 - ratio)]
  | sell =>
      simp only [evaluate, commCharge]
      split_ifs with h1
      · exact hc
      · show 0 ≤ cash + pos * price - pos * price * r
        nlinarith [mul_nonneg (mul_nonneg hq hp.le) (by linarith : (0:ℚ) ≤ 1 - r)]

theorem backtestStatesAux_pos_nonneg (cfg : SimConfig) (strat : List ℚ → SignalKind) :
    ∀ (series hist : List ℚ) (cash pos : ℚ), 0 ≤ pos →
      ∀ st ∈ backtestStatesAux cfg strat series hist cash pos, 0 ≤ st.2 := by
  intro series
  induction series with
  | nil => intro hist cash pos _ st hst; simp [backtestStatesAux] at hst
  | cons p ps ih =>
      intro hist cash pos hq st hst
      have hev := evaluate_position_nonneg (strat (hist ++ [p])) p cash pos cfg hq
      simp only [backtestStatesAux, List.mem_cons] at hst
      rcases hst with rfl | hst
      · exact hev
      · exact ih (hist ++ [p]) _ _ hev st hst

theorem backtestStatesAux_rate_nonneg (strat : List ℚ → SignalKind) (lot ratio r : ℚ)
    (hl : 0 < lot) (hρ0 : 0 < ratio) (hρ1 : ratio ≤ 1) (hr0 : 0 ≤ r) (hr1 : r ≤ 1) :
    ∀ (series hist : List ℚ) (cash pos : ℚ), 0 ≤ cash → 0 ≤ pos →
      (∀ p ∈ series, 0 < p) →
      ∀ st ∈ backtestStatesAux ⟨lot, ratio, CommissionModel.rate r⟩ strat series hist cash pos,
        0 ≤ st.1 ∧ 0 ≤ st.2 := by
  intro series
  induction series with
  | nil => intro hist cash pos _ _ _ st hst; simp [backtestStatesAux] at hst
  | cons p ps ih =>
      intro hist cash pos hc hq hs st hst
      have hp : 0 < p := hs p (List.mem_cons_self p ps)
      have hev := evaluate_rate_nonneg (strat (hist ++ [p])) p cash pos lot ratio r
        hl hρ0 hρ1 hr0 hr1 hp hc hq
      simp only [backtestStatesAux, List.mem_cons] at hst
      rcases hst with rfl | hst
      · exact hev
      · exact ih (hist ++ [p]) _ _ hev.1 hev.2
          (fun q hq2 => hs q (List.mem_cons_of_mem p hq2)) st hst

/-- C5 counterexample: with the flat-commission model the spec's own rules
drive cash negative on a reachable state: flat fee 6, lot 1, ratio 1,
initial cash 10, prices `[1, 1/2]`, buy then sell — the buy leaves
(cash 0, position 4), the sell then yields cash `0 + 2 − 6 = −4 < 0`. -/
theorem cash_negative_counterexample :
    ((-4 : ℚ), (0 : ℚ)) ∈ backtestStates cfgFlatCE stratBuyThenSell [1, 1/2] 10 ∧
    ¬ (0 : ℚ) ≤ (-4 : ℚ) := by
  constructor
  · norm_num [backtestStates, backtestStatesAux, evaluate, commCharge, cfgFlatCE,
      stratBuyThenSell]
  · norm_num

/-- C5 (amended): position is never negative in any reachable engine state;
under the commission-rate model with rate in `[0, 1]` (the Backtest Engine's
model) cash is also never negative in any reachable state; under the
flat-fee model (live tasks) every mutation keeps position non-negative and a
buy keeps cash non-negative, while a sell keeps cash non-negative provided
its flat fee does not exceed cash plus proceeds. -/
theorem accounting_nonneg_amended (cfg : SimConfig) (strat : List ℚ → SignalKind)
    (series : List ℚ) (cash0 lot ratio r fee price cash pos : ℚ) (sig : SignalKind) :
    (∀ st ∈ backtestStates cfg strat series cash0, 0 ≤ st.2) ∧
    (0 < lot → 0 < ratio → ratio ≤ 1 → 0 ≤ r → r ≤ 1 → 0 ≤ cash0 →
      (∀ p ∈ series, 0 < p) →
      ∀ st ∈ backtestStates ⟨lot, ratio, CommissionModel.rate r⟩ strat series cash0,
        0 ≤ st.1 ∧ 0 ≤ st.2) ∧
    (0 ≤ pos → 0 ≤ (evaluate sig price cash pos cfg).2.1) ∧
    (0 < lot → ratio ≤ 1 → 0 < price → 0 ≤ cash →
      0 ≤ (evaluate SignalKind.buy price cash pos ⟨lot, ratio, CommissionModel.flat fee⟩).1) ∧
    (0 ≤ cash → fee ≤ cash + pos * price →
      0 ≤ (evaluate SignalKind.sell price cash pos ⟨lot, ratio, CommissionModel.flat fee⟩).1) := by
  refine ⟨?_, ?_, ?_, ?_, ?_⟩
  · intro st hst
    simp only [backtestStates, List.mem_cons] at hst
    rcases hst with rfl | hst
    · exact le_refl 0
    · exact backtestStatesAux_pos_nonneg cfg strat series [] cash0 0 (le_refl 0) st hst
  · intro hl hρ0 hρ1 hr0 hr1 hc0 hs st hst
    simp only [backtestStates, List.mem_cons] at hst
    rcases hst with rfl | hst
    · exact ⟨hc0, le_refl 0⟩
    · exact backtestStatesAux_rate_nonneg strat lot ratio r hl hρ0 hρ1 hr0 hr1
        series [] cash0 0 hc0 (le_refl 0) hs st hst
  · exact fun hq => evaluate_position_nonneg sig price cash pos cfg hq
  · exact fun hl hρ1 hp hc => evaluate_flat_buy_cash_nonneg price cash pos lot ratio fee hl hρ1 hp hc
  · exact fun hc hfee => evaluate_flat_sell_cash_nonneg price cash pos lot ratio fee hc hfee

/-- Witness for C5's amended theorem: a trivial rate-model run (empty
series) has its one reachable state non-negative. -/
theorem accounting_nonneg_amended_witness :
    (0 : ℚ) ≤ ((100 : ℚ), (0 : ℚ)).1 ∧ (0 : ℚ) ≤ ((100 : ℚ), (0 : ℚ)).2 :=
  (accounting_nonneg_amended ⟨1, 1, CommissionModel.rate 0⟩ (fun _ => SignalKind.hold)
      [] 100 1 1 0 0 1 0 0 SignalKind.hold).2.1
    (by norm_num) (by norm_num) (by norm_num) (by norm_num) (by norm_num) (by norm_num)
    (by simp)
    (100, 0) (by simp [backtestStates, backtestStatesAux])

/-! ## C10: y-axis domain bounds the data -/

theorem foldl_jsMin_fin (qs : List ℚ) :
    ∀ q : ℚ, (qs.map JSNum.fin).foldl jsMin (JSNum.fin q) = JSNum.fin (qs.foldl min q) := by
  induction qs with
  | nil => intro q; rfl
  | cons x xs ih =>
      intro q
      simp only [List.map_cons, List.foldl_cons]
      exact ih (min q x)

theorem foldl_jsMax_fin (qs : List ℚ) :
    ∀ q : ℚ, (qs.map JSNum.fin).foldl jsMax (JSNum.fin q) = JSNum.fin (qs.foldl max q) := by
  induction qs with
  | nil => intro q; rfl
  | cons x xs ih =>
      intro q
      simp only [List.map_cons, List.foldl_cons]
      exact ih (max q x)

theorem foldl_jsMin_absorb (l : List JSNum) :
    ∀ a : JSNum, (a = JSNum.nan ∨ a = JSNum.negInf) →
      (l.foldl jsMin a = JSNum.nan ∨ l.foldl jsMin a = JSNum.negInf) := by
  induction l with
  | nil => intro a h; exact h
  | cons x xs ih =>
      intro a h
      apply ih
      rcases h with rfl | rfl
      · exact Or.inl (by cases x <;> rfl)
      · cases x with
        | nan => exact Or.inl rfl
        | fin q => exact Or.inr rfl
        | posInf => exact Or.inr rfl
        | negInf => exact Or.inr rfl

theorem foldl_jsMax_absorb (l : List JSNum) :
    ∀ a : JSNum, (a = JSNum.nan ∨ a = JSNum.posInf) →
      (l.foldl jsMax a = JSNum.nan ∨ l.foldl jsMax a = JSNum.posInf) := by
  induction l with
  | nil => intro a h; exact h
  | cons x xs ih =>
      intro a h
      apply ih
      rcases h with rfl | rfl
      · exact Or.inl (by cases x <;> rfl)
      · cases x with
        | nan => exact Or.inl rfl
        | fin q => exact Or.inr rfl
        | posInf => exact Or.inr rfl
        | negInf => exact Or.inr rfl

theorem foldl_jsMin_mem_nonfin (l : List JSNum) :
    ∀ (a v : JSNum), v ∈ l → (v = JSNum.nan ∨ v = JSNum.negInf) →
      (l.foldl jsMin a = JSNum.nan ∨ l.foldl jsMin a = JSNum.negInf) := by
  induction l with
  | nil => intro a v hv; cases hv
  | cons x xs ih =>
      intro a v hv hnf
      simp only [List.foldl_cons]
      rcases List.mem_cons.mp hv with rfl | hv2
      · apply foldl_jsMin_absorb
        rcases hnf with rfl | rfl
        · exact Or.inl (by cases a <;> rfl)
        · cases a with
          | nan => exact Or.inl rfl
          | fin q => exact Or.inr rfl
          | posInf => exact Or.inr rfl
          | negInf => exact Or.inr rfl
      · exact ih (jsMin a x) v hv2 hnf

theorem foldl_jsMax_mem_nonfin (l : List JSNum) :
    ∀ (a v : JSNum), v ∈ l → (v = JSNum.nan ∨ v = JSNum.posInf) →
      (l.foldl jsMax a = JSNum.nan ∨ l.foldl jsMax a = JSNum.posInf) := by
  induction l with
  | nil => intro a v hv; cases hv
  | cons x xs ih =>
      intro a v hv hnf
      simp only [List.foldl_cons]
      rcases List.mem_cons.mp hv with rfl | hv2
      · apply foldl_jsMax_absorb
        rcases hnf with rfl | rfl
        · exact Or.inl (by cases a <;> rfl)
        · cases a with
          | nan => exact Or.inl rfl
          | fin q => exact Or.inr rfl
          | posInf => exact Or.inr rfl
          | negInf => exact Or.inr rfl
      · exact ih (jsMax a x) v hv2 hnf

theorem yDomain_eq_of_fins (vals : List (Option JSNum)) (q0 : ℚ) (qs : List ℚ)
    (h : vals.filterMap id = JSNum.fin q0 :: qs.map JSNum.fin) :
    yDomain vals =
      some (qs.foldl min q0 -
              (if (qs.foldl max q0 - qs.foldl min q0) * (1/10) = 0 then
                 (if qs.foldl max q0 = 0 then 1 else qs.foldl max q0) * (1/10)
               else (qs.foldl max q0 - qs.foldl min q0) * (1/10)),
            qs.foldl max q0 +
              (if (qs.foldl max q0 - qs.foldl min q0) * (1/10) = 0 then
                 (if qs.foldl max q0 = 0 then 1 else qs.foldl max q0) * (1/10)
               else (qs.foldl max q0 - qs.foldl min q0) * (1/10))) := by
  unfold yDomain
  rw [h]
  simp only [foldl_jsMin_fin, foldl_jsMax_fin]

/-- C10: on an empty filtered value list, and on one containing a non-finite
number, no y-axis domain is produced; on a non-empty list of positive finite
prices the domain is `[min − pad, max + pad]` with `pad` equal to 10% of the
range (or 10% of the maximum when the range is zero), `pad` is strictly
positive, and every price lies strictly inside the domain. -/
theorem yDomain_bounds (vals : List (Option JSNum)) (v : JSNum) (q0 : ℚ) (qs : List ℚ) :
    (vals.filterMap id = [] → yDomain vals = none) ∧
    (v ∈ vals.filterMap id → v.isFinite = false → yDomain vals = none) ∧
    (vals.filterMap id = (q0 :: qs).map JSNum.fin → (∀ q ∈ q0 :: qs, 0 < q) →
      ∃ pad : ℚ,
        pad = (if qs.foldl max q0 = qs.foldl min q0 then qs.foldl max q0 * (1/10)
               else (qs.foldl max q0 - qs.foldl min q0) * (1/10)) ∧
        0 < pad ∧
        yDomain vals = some (qs.foldl min q0 - pad, qs.foldl max q0 + pad) ∧
        ∀ q ∈ q0 :: qs, qs.foldl min q0 - pad < q ∧ q < qs.foldl max q0 + pad) := by
  refine ⟨?_, ?_, ?_⟩
  · intro h
    simp [yDomain, h]
  · intro hv hnf
    rcases hl : vals.filterMap id with _ | ⟨w, ws⟩
    · simp [yDomain, hl]
    · rw [hl] at hv
      have hor : (ws.foldl jsMin w = JSNum.nan ∨ ws.foldl jsMin w = JSNum.negInf) ∨
          (ws.foldl jsMax w = JSNum.nan ∨ ws.foldl jsMax w = JSNum.posInf) := by
        cases v with
        | fin q => simp [JSNum.isFinite] at hnf
        | nan =>
            refine Or.inl ?_
            rcases List.mem_cons.mp hv with rfl | hv2
            · exact foldl_jsMin_absorb ws JSNum.nan (Or.inl rfl)
            · exact foldl_jsMin_mem_nonfin ws w _ hv2 (Or.inl rfl)
        | negInf =>
            refine Or.inl ?_
            rcases List.mem_cons.mp hv with rfl | hv2
            · exact foldl_jsMin_absorb ws JSNum.negInf (Or.inr rfl)
            · exact foldl_jsMin_mem_nonfin ws w _ hv2 (Or.inr rfl)
        | posInf =>
            refine Or.inr ?_
            rcases List.mem_cons.mp hv with rfl | hv2
            · exact foldl_jsMax_absorb ws JSNum.posInf (Or.inr rfl)
            · exact foldl_jsMax_mem_nonfin ws w _ hv2 (Or.inr rfl)
      cases hA : ws.foldl jsMin w <;> cases hB : ws.foldl jsMax w <;> simp_all [yDomain]
  · intro hfm hpos
    have hfm2 : vals.filterMap id = JSNum.fin q0 :: qs.map JSNum.fin := by
      simpa using hfm
    have hq0 : 0 < q0 := hpos q0 (List.mem_cons_self q0 qs)
    have hmnq0 : qs.foldl min q0 ≤ q0 := foldl_min_le qs q0
    have hq0mx : q0 ≤ qs.foldl max q0 := le_foldl_max qs q0
    have hmx0 : 0 < qs.foldl max q0 := lt_of_lt_of_le hq0 hq0mx
    refine ⟨if qs.foldl max q0 = qs.foldl min q0 then qs.foldl max q0 * (1/10)
            else (qs.foldl max q0 - qs.foldl min q0) * (1/10), rfl, ?_, ?_, ?_⟩
    · by_cases heq : qs.foldl max q0 = qs.foldl min q0
      · rw [if_pos heq]; positivity
      · rw [if_neg heq]
        have hlt : qs.foldl min q0 < qs.foldl max q0 :=
          lt_of_le_of_ne (le_trans hmnq0 hq0mx) (fun h => heq h.symm)
        nlinarith
    · rw [yDomain_eq_of_fins vals q0 qs hfm2]
      by_cases heq : qs.foldl max q0 = qs.foldl min q0
      · rw [if_pos (by rw [heq]; ring), if_neg (ne_of_gt hmx0), if_pos heq]
      · have hne : (qs.foldl max q0 - qs.foldl min q0) * (1/10) ≠ 0 := by
          intro h0
          rcases mul_eq_zero.mp h0 with h1 | h1
          · exact heq (by linarith)
          · norm_num at h1
        rw [if_neg hne, if_neg heq]
    · intro q hq
      have hmn : qs.foldl min q0 ≤ q := by
        rcases List.mem_cons.mp hq with rfl | hq2
        · exact hmnq0
        · exact foldl_min_le_mem qs q0 hq2
      have hmx : q ≤ qs.foldl max q0 := by
        rcases List.mem_cons.mp hq with rfl | hq2
        · exact hq0mx
        · exact mem_le_foldl_max qs q0 hq2
      by_cases hin : qs.foldl max q0 = qs.foldl min q0
      · rw [if_pos hin]
        constructor <;> nlinarith
      · rw [if_neg hin]
        have hlt : qs.foldl min q0 < qs.foldl max q0 :=
          lt_of_le_of_ne (le_trans hmnq0 hq0mx) (fun h => hin h.symm)
        constructor <;> nlinarith

/-- Witness for C10 on the price list `[10, 12]`: the domain is
`[10 − 0.2, 12 + 0.2] = [49/5, 61/5]`. -/
theorem yDomain_bounds_witness :
    yDomain [some (JSNum.fin 10), some (JSNum.fin 12)] = some (49/5, 61/5) := by
  obtain ⟨pad, hpad, hp2, hdom, hb⟩ :=
    (yDomain_bounds [some (JSNum.fin 10), some (JSNum.fin 12)] JSNum.nan 10 [12]).2.2
      (by simp)
      (by intro q hq; simp at hq; rcases hq with rfl | rfl <;> norm_num)
  norm_num [List.foldl_cons, List.foldl_nil, min_def, max_def] at hpad hdom
  rw [hpad] at hdom
  norm_num at hdom
  exact hdom
